import Mathlib

/-!
Verification of the safevalues HTML builders (`htmlEscape`, `scriptToHtml`,
`scriptUrlToHtml`, `htmlEscapeToString`, `concatHtmls`).

Strings are modelled as `List Char`.  A JavaScript global single-character
regex replacement `s.replace(/c/g, rep)` is modelled by `replaceChar`, and the
three whitespace-preserving regex rewrites are modelled by recursive scanners
that follow the left-to-right, non-overlapping, first-alternative-wins
semantics of JavaScript `String.prototype.replace` with a global regex.
-/

/-- Modelled from the spec: the brand wrapper for markup values
(`internals/html_impl` is not part of the sources; the spec describes it as an
opaque wrapper with a designated constructor and accessor). -/
structure SafeHtml where
  raw : List Char
deriving DecidableEq

/-- Modelled from the spec: the designated constructor of the markup brand. -/
def createHtml (s : List Char) : SafeHtml := ⟨s⟩

/-- Modelled from the spec: the designated accessor of the markup brand. -/
def unwrapHtml (h : SafeHtml) : List Char := h.raw

/-- Modelled from the spec: the brand wrapper for script values
(`internals/script_impl` is not part of the sources). -/
structure SafeScript where
  raw : List Char
deriving DecidableEq

/-- Modelled from the spec: the designated constructor of the script brand. -/
def createScript (s : List Char) : SafeScript := ⟨s⟩

/-- Modelled from the spec: the designated accessor of the script brand. -/
def unwrapScript (s : SafeScript) : List Char := s.raw

/-- Modelled from the spec: the brand wrapper for resource URLs
(`internals/resource_url_impl` is not part of the sources). -/
structure TrustedResourceUrl where
  raw : List Char
deriving DecidableEq

/-- Modelled from the spec: the designated constructor of the URL brand. -/
def createResourceUrl (s : List Char) : TrustedResourceUrl := ⟨s⟩

/-- Modelled from the spec: the designated accessor of the URL brand. -/
def unwrapResourceUrl (u : TrustedResourceUrl) : List Char := u.raw

/-- JavaScript `text.replace(/c/g, rep)` for a single character `c`:
every occurrence of `c` is replaced by `rep`, all other characters kept. -/
def replaceChar (c : Char) (rep : List Char) : List Char → List Char
  | [] => []
  | a :: rest => (if a = c then rep else [a]) ++ replaceChar c rep rest

/-- `htmlEscapeToString` from the source: the five sequential global
replacements `& → &amp;`, `< → &lt;`, `> → &gt;`, `" → &quot;`,
`' → &apos;`, applied in source order (`&` first). -/
def htmlEscapeToString (text : List Char) : List Char :=
  replaceChar '\x27' "&apos;".data
    (replaceChar '"' "&quot;".data
      (replaceChar '>' "&gt;".data
        (replaceChar '<' "&lt;".data
          (replaceChar '&' "&amp;".data text))))

/-- The character class `[\r\n\t ]` of the space-preservation regex
`/(^|[\r\n\t ]) /g`, i.e. the boundary characters. -/
def isBoundary (c : Char) : Bool :=
  c = '\r' || c = '\n' || c = '\t' || c = ' '

/-- The scanner for `/(^|[\r\n\t ]) /g → '$1&#160;'` at positions after the
start of the string: a boundary character followed by a space matches (the
pair is consumed, the space becomes `&#160;`), otherwise the scan advances
one character. -/
def psAux : List Char → List Char
  | [] => []
  | [c] => [c]
  | c1 :: c2 :: rest =>
    if isBoundary c1 ∧ c2 = ' ' then c1 :: ("&#160;".data ++ psAux rest)
    else c1 :: psAux (c2 :: rest)

/-- JavaScript `s.replace(/(^|[\r\n\t ]) /g, '$1&#160;')`: the `^`
alternative can only fire at position 0 (and wins there when position 0 holds
a space); afterwards `psAux` scans the rest. -/
def preserveSpacesRewrite (s : List Char) : List Char :=
  match s with
  | ' ' :: rest => "&#160;".data ++ psAux rest
  | _ => psAux s

/-- JavaScript `s.replace(/(\r\n|\n|\r)/g, '<br>')`: first alternative wins,
so a CRLF pair is consumed as one match. -/
def preserveNewlinesRewrite : List Char → List Char
  | [] => []
  | '\r' :: '\n' :: rest => "<br>".data ++ preserveNewlinesRewrite rest
  | '\n' :: rest => "<br>".data ++ preserveNewlinesRewrite rest
  | '\r' :: rest => "<br>".data ++ preserveNewlinesRewrite rest
  | c :: rest => c :: preserveNewlinesRewrite rest

/-- State machine for `/(\t+)/g → '<span style="white-space:pre">$1</span>'`:
`inTab` records whether the scanner is inside a maximal run of tabs, so each
maximal run gets exactly one opening and one closing wrapper. -/
def tabAux : Bool → List Char → List Char
  | inTab, [] => if inTab then "</span>".data else []
  | inTab, c :: rest =>
    if c = '\t' then
      (if inTab then [] else "<span style=\"white-space:pre\">".data) ++
        '\t' :: tabAux true rest
    else
      (if inTab then "</span>".data else []) ++ c :: tabAux false rest

/-- JavaScript
`s.replace(/(\t+)/g, '<span style="white-space:pre">$1</span>')`. -/
def preserveTabsRewrite (s : List Char) : List Char := tabAux false s

/-- The option bag of `htmlEscape` (all default to off, like the `= {}`
default and absent fields in the source). -/
structure EscapeOptions where
  preserveNewlines : Bool := false
  preserveSpaces : Bool := false
  preserveTabs : Bool := false
deriving DecidableEq

/-- `htmlEscape` from the source: unconditional escaping, then the three
conditional rewrites in source order (spaces, newlines, tabs). -/
def htmlEscape (text : List Char) (options : EscapeOptions := {}) : SafeHtml :=
  let htmlEscapedString := htmlEscapeToString text
  let htmlEscapedString :=
    if options.preserveSpaces then preserveSpacesRewrite htmlEscapedString
    else htmlEscapedString
  let htmlEscapedString :=
    if options.preserveNewlines then preserveNewlinesRewrite htmlEscapedString
    else htmlEscapedString
  let htmlEscapedString :=
    if options.preserveTabs then preserveTabsRewrite htmlEscapedString
    else htmlEscapedString
  createHtml htmlEscapedString

/-- JavaScript truthiness of an optional string field: truthy exactly when
the field is present and non-empty. -/
def strTruthy : Option (List Char) → Bool
  | none => false
  | some s => !s.isEmpty

/-- The option bag of `scriptToHtml`. `none` models an absent field. -/
structure ScriptToHtmlOptions where
  id : Option (List Char) := none
  nonce : Option (List Char) := none
  type : Option (List Char) := none
deriving DecidableEq

/-- `scriptToHtml` from the source.  `"\x3c/script>"` is written exactly as
in the source; the `\x3c` escape denotes the character `<`. -/
def scriptToHtml (script : SafeScript)
    (options : ScriptToHtmlOptions := {}) : SafeHtml :=
  let unwrappedScript := unwrapScript script
  let stringTag := "<script".data
  let stringTag :=
    if strTruthy options.id then
      stringTag ++ " id=\"".data ++
        htmlEscapeToString (options.id.getD []) ++ "\"".data
    else stringTag
  let stringTag :=
    if strTruthy options.nonce then
      stringTag ++ " nonce=\"".data ++
        htmlEscapeToString (options.nonce.getD []) ++ "\"".data
    else stringTag
  let stringTag :=
    if strTruthy options.type then
      stringTag ++ " type=\"".data ++
        htmlEscapeToString (options.type.getD []) ++ "\"".data
    else stringTag
  let stringTag :=
    stringTag ++ ">".data ++ unwrappedScript ++ "\x3c/script>".data
  createHtml stringTag

/-- The option bag of `scriptUrlToHtml`. -/
structure ScriptUrlToHtmlOptions where
  async : Option Bool := none
  nonce : Option (List Char) := none
deriving DecidableEq

/-- `scriptUrlToHtml` from the source.  `options.async.getD false` is the
JavaScript truthiness of the optional boolean. -/
def scriptUrlToHtml (src : TrustedResourceUrl)
    (options : ScriptUrlToHtmlOptions := {}) : SafeHtml :=
  let unwrappedSrc := unwrapResourceUrl src
  let stringTag :=
    "<script src=\"".data ++ htmlEscapeToString unwrappedSrc ++ "\"".data
  let stringTag :=
    if options.async.getD false then stringTag ++ " async".data
    else stringTag
  let stringTag :=
    if strTruthy options.nonce then
      stringTag ++ " nonce=\"".data ++
        htmlEscapeToString (options.nonce.getD []) ++ "\"".data
    else stringTag
  let stringTag := stringTag ++ ">\x3c/script>".data
  createHtml stringTag

/-- `concatHtmls` from the source: `htmls.map(unwrapHtml).join('')`. -/
def concatHtmls (htmls : List SafeHtml) : SafeHtml :=
  createHtml (List.flatten (htmls.map unwrapHtml))

/-! ### Specification-side definitions

The definitions below restate, in the spec's own terms, what the escaping and
the builders are supposed to produce; the theorems compare them with the
source-derived definitions above. -/

/-- The per-character substitution table of the spec: `&`, `<`, `>`, `"`,
`'` map to their entities, every other character is unchanged. -/
def escChar (c : Char) : List Char :=
  if c = '&' then "&amp;".data
  else if c = '<' then "&lt;".data
  else if c = '>' then "&gt;".data
  else if c = '"' then "&quot;".data
  else if c = '\x27' then "&apos;".data
  else [c]

/-- Concatenation of a per-character substitution over a string. -/
def charJoin (f : Char → List Char) : List Char → List Char
  | [] => []
  | c :: rest => f c ++ charJoin f rest

/-- Scanner for the spec's "no literal `<`, `>`, `"`, `'`, and no `&`
outside the generated entity sequences": every `&` must begin one of the
five entities (whose remaining characters are consumed), the four other
structural characters may not occur at all. -/
def entityClean : List Char → Bool
  | [] => true
  | c :: rest =>
    if c = '&' then
      match rest with
      | 'a' :: 'm' :: 'p' :: ';' :: r => entityClean r
      | 'l' :: 't' :: ';' :: r => entityClean r
      | 'g' :: 't' :: ';' :: r => entityClean r
      | 'q' :: 'u' :: 'o' :: 't' :: ';' :: r => entityClean r
      | 'a' :: 'p' :: 'o' :: 's' :: ';' :: r => entityClean r
      | _ => false
    else if c = '<' then false
    else if c = '>' then false
    else if c = '"' then false
    else if c = '\x27' then false
    else entityClean rest

/-- `pat` occurs as a contiguous substring of `s`. -/
def containsSeq (pat s : List Char) : Bool :=
  s.tails.any (fun t => List.isPrefixOf pat t)

/-- Conditional application of a post-processing step, as the spec phrases
it: the step applies iff its toggle is set. -/
def applyIf (b : Bool) (f : List Char → List Char) (s : List Char) : List Char :=
  if b then f s else s

/-- The fixed-order composition described by the spec: the unconditional
substitution first, then (iff `preserveSpaces`) the every-second-space
rewrite, then (iff `preserveNewlines`) the newline rewrite, then (iff
`preserveTabs`) the tab-run rewrite. -/
def specEscapeComposition (options : EscapeOptions) (s : List Char) : List Char :=
  applyIf options.preserveTabs preserveTabsRewrite
    (applyIf options.preserveNewlines preserveNewlinesRewrite
      (applyIf options.preserveSpaces preserveSpacesRewrite
        (htmlEscapeToString s)))

/-- An optional attribute as the spec describes it: emitted as
`name="escaped value"` when the option is (truthily) supplied, wholly
omitted otherwise. -/
def attrFragment (name : List Char) (value : Option (List Char)) : List Char :=
  if strTruthy value then
    name ++ "=\"".data ++ htmlEscapeToString (value.getD []) ++ "\"".data
  else []

/-- Expected shape of a rewritten run of `n` consecutive spaces: every
second space becomes `&#160;`, a trailing odd space stays plain. -/
def altRun : Nat → List Char
  | 0 => []
  | 1 => [' ']
  | n + 2 => ' ' :: ("&#160;".data ++ altRun n)

/-! ### Helper lemmas -/

theorem replaceChar_append (c : Char) (rep l r : List Char) :
    replaceChar c rep (l ++ r) = replaceChar c rep l ++ replaceChar c rep r := by
  induction l with
  | nil => rfl
  | cons a l ih => simp [replaceChar, ih, List.append_assoc]

theorem htmlEscapeToString_append (l r : List Char) :
    htmlEscapeToString (l ++ r) =
      htmlEscapeToString l ++ htmlEscapeToString r := by
  simp [htmlEscapeToString, replaceChar_append]

theorem htmlEscapeToString_cons (c : Char) (s : List Char) :
    htmlEscapeToString (c :: s) = escChar c ++ htmlEscapeToString s := by
  have h : (c :: s) = [c] ++ s := rfl
  rw [h, htmlEscapeToString_append]
  congr 1
  by_cases h1 : c = '&'
  · subst h1; rfl
  by_cases h2 : c = '<'
  · subst h2; rfl
  by_cases h3 : c = '>'
  · subst h3; rfl
  by_cases h4 : c = '"'
  · subst h4; rfl
  by_cases h5 : c = '\x27'
  · subst h5; rfl
  simp [htmlEscapeToString, replaceChar, escChar, h1, h2, h3, h4, h5]

theorem htmlEscapeToString_eq_charJoin (s : List Char) :
    htmlEscapeToString s = charJoin escChar s := by
  induction s with
  | nil => rfl
  | cons c s ih => rw [htmlEscapeToString_cons, ih]; rfl

set_option maxHeartbeats 4000000 in
theorem entityClean_escChar_append (c : Char) (t : List Char) :
    entityClean (escChar c ++ t) = entityClean t := by
  by_cases h1 : c = '&'
  · subst h1; rfl
  by_cases h2 : c = '<'
  · subst h2; rfl
  by_cases h3 : c = '>'
  · subst h3; rfl
  by_cases h4 : c = '"'
  · subst h4; rfl
  by_cases h5 : c = '\x27'
  · subst h5; rfl
  have he : escChar c = [c] := by simp [escChar, h1, h2, h3, h4, h5]
  rw [he]
  show entityClean (c :: t) = entityClean t
  rw [entityClean.eq_def]
  try dsimp only
  rw [if_neg h1, if_neg h2, if_neg h3, if_neg h4, if_neg h5]

theorem entityClean_charJoin (s : List Char) :
    entityClean (charJoin escChar s) = true := by
  induction s with
  | nil => rfl
  | cons c s ih =>
    show entityClean (escChar c ++ charJoin escChar s) = true
    rw [entityClean_escChar_append, ih]

theorem psAux_space_run (c : Char) (hc : c ≠ ' ') (t : List Char) :
    ∀ n, psAux (List.replicate n ' ' ++ c :: t) = altRun n ++ psAux (c :: t)
  | 0 => by simp [altRun]
  | 1 => by simp +decide [List.replicate, psAux, altRun, isBoundary, hc]
  | (n + 2) => by
    have ih := psAux_space_run c hc t n
    simp +decide [List.replicate, psAux, altRun, isBoundary, ih, List.append_assoc]

theorem suffix_append_four (a b c d : List Char) : d <:+ a ++ b ++ c ++ d :=
  ⟨a ++ b ++ c, rfl⟩

theorem suffix_cons_append (a d : List Char) (c : Char) : d <:+ a ++ (c :: d) :=
  ⟨a ++ [c], by simp⟩

/-! ### Claims -/

/-- Claim C1, counterexample: with payload `alert(1)` and no options the
inline builder produces `<script>alert(1)</script>`, which does contain the
substring `</script>` with a literal slash (and no occurrence of the
source-text sequence `\x3c` appears in the output); the external builder's
output contains `</script>` as well. -/
theorem c1_counterexample :
    unwrapHtml (scriptToHtml (createScript "alert(1)".data) {}) =
      "<script>alert(1)</script>".data ∧
    containsSeq "</script>".data
      (unwrapHtml (scriptToHtml (createScript "alert(1)".data) {})) = true ∧
    containsSeq "\\x3c/script>".data
      (unwrapHtml (scriptToHtml (createScript "alert(1)".data) {})) = false ∧
    containsSeq "</script>".data
      (unwrapHtml (scriptUrlToHtml
        (createResourceUrl "https://example.com/main.js".data) {})) = true := by
  decide

/-- Claim C1, amended: in the source the closing tag is written
`\x3c/script>`, but `\x3c` is a JavaScript source-text escape for the
character `<` (not an output-level encoding of the slash), so for every
payload and every choice of options both builders emit the literal
closing sequence `</script>` as a suffix of the produced string. -/
theorem c1_closing_tag_is_literal :
    ∀ (s : SafeScript) (o : ScriptToHtmlOptions)
      (u : TrustedResourceUrl) (ou : ScriptUrlToHtmlOptions),
      "</script>".data <:+ unwrapHtml (scriptToHtml s o) ∧
      "</script>".data <:+ unwrapHtml (scriptUrlToHtml u ou) := by
  intro s o u ou
  constructor
  · simp only [scriptToHtml, unwrapHtml, createHtml]
    exact suffix_append_four _ _ _ _
  · simp only [scriptUrlToHtml, unwrapHtml, createHtml]
    exact suffix_cons_append _ _ _

/-- Claim C2: escaping with default options maps each of `&`, `<`, `>`,
`"`, `'` to its entity and keeps every other character unchanged
(`charJoin escChar`), and the result contains no literal `<`, `>`, `"`,
`'` and no `&` outside the generated entity sequences (`entityClean`). -/
theorem c2_default_escape_charwise :
    ∀ s : List Char,
      unwrapHtml (htmlEscape s {}) = charJoin escChar s ∧
      entityClean (unwrapHtml (htmlEscape s {})) = true := by
  intro s
  have h : unwrapHtml (htmlEscape s {}) = charJoin escChar s := by
    have h0 : unwrapHtml (htmlEscape s {}) = htmlEscapeToString s := rfl
    rw [h0, htmlEscapeToString_eq_charJoin]
  exact ⟨h, by rw [h, entityClean_charJoin]⟩

/-- Claim C3: for every string and every combination of the three toggles
the escape function equals the fixed-order composition (unconditional
substitution, then space preservation, then newline preservation, then tab
preservation); the spec's two concrete examples evaluate as stated. -/
theorem c3_fixed_order_composition :
    (∀ (s : List Char) (options : EscapeOptions),
      unwrapHtml (htmlEscape s options) = specEscapeComposition options s) ∧
    unwrapHtml (htmlEscape "a\nb".data {preserveNewlines := true}) =
      "a<br>b".data ∧
    unwrapHtml (htmlEscape "a\t\tb".data {preserveTabs := true}) =
      "a<span style=\"white-space:pre\">\t\t</span>b".data := by
  refine ⟨fun s options => rfl, by decide, by decide⟩

/-- Claim C4: concatenation unwraps to the ordered, separator-free
concatenation of the unwrapped inputs, with no escaping applied. -/
theorem c4_concat_ordered_no_separator :
    (∀ l : List SafeHtml,
      unwrapHtml (concatHtmls l) = (l.map unwrapHtml).foldr (· ++ ·) []) ∧
    ∀ a b c : SafeHtml,
      unwrapHtml (concatHtmls [a, b, c]) =
        unwrapHtml a ++ unwrapHtml b ++ unwrapHtml c := by
  constructor
  · intro l
    induction l with
    | nil => rfl
    | cons h l ih =>
      simpa [concatHtmls, unwrapHtml, createHtml] using ih
  · intro a b c
    simp [concatHtmls, unwrapHtml, createHtml]

/-- Claim C5: with `preserveSpaces`, a run of consecutive spaces is
rewritten by a single left-to-right non-overlapping pass so that every
second space becomes `&#160;` (`altRun`); a space directly after any
boundary character becomes the entity; and `"a  b"` yields `"a &#160;b"`. -/
theorem c5_every_second_space :
    (∀ (n : Nat) (c : Char) (t : List Char), c ≠ ' ' →
      preserveSpacesRewrite ('a' :: (List.replicate n ' ' ++ c :: t)) =
        'a' :: (altRun n ++ psAux (c :: t))) ∧
    (∀ (b : Char) (rest : List Char), isBoundary b = true →
      psAux (b :: ' ' :: rest) = b :: ("&#160;".data ++ psAux rest)) ∧
    unwrapHtml (htmlEscape "a  b".data {preserveSpaces := true}) =
      "a &#160;b".data := by
  refine ⟨?_, ?_, by decide⟩
  · intro n c t hc
    have hps : preserveSpacesRewrite ('a' :: (List.replicate n ' ' ++ c :: t)) =
        psAux ('a' :: (List.replicate n ' ' ++ c :: t)) := rfl
    rw [hps]
    cases n with
    | zero =>
      simp only [List.replicate, List.nil_append]
      simp +decide [psAux, isBoundary, altRun]
    | succ m =>
      have hsplit : List.replicate (m + 1) ' ' ++ c :: t =
          ' ' :: (List.replicate m ' ' ++ c :: t) := by
        rw [List.replicate_succ, List.cons_append]
      rw [hsplit]
      have h2 : psAux ('a' :: ' ' :: (List.replicate m ' ' ++ c :: t)) =
          'a' :: psAux (' ' :: (List.replicate m ' ' ++ c :: t)) := by
        simp +decide [psAux, isBoundary]
      rw [h2, ← hsplit, psAux_space_run c hc t (m + 1)]
  · intro b rest hb
    simp [psAux, hb]

/-- Closed witness for the two hypotheses of `c5_every_second_space`: the
run formula at `n = 2` with terminator `b`, and the boundary rewrite at
the boundary character TAB. -/
theorem c5_every_second_space_witness :
    preserveSpacesRewrite ('a' :: (List.replicate 2 ' ' ++ 'b' :: [])) =
      'a' :: (altRun 2 ++ psAux ('b' :: [])) ∧
    psAux ('\t' :: ' ' :: []) = '\t' :: ("&#160;".data ++ psAux []) :=
  ⟨c5_every_second_space.1 2 'b' [] (by decide),
   c5_every_second_space.2.1 '\t' [] (by decide)⟩

/-- Claim C6: the inline builder emits the optional attributes in the
fixed order id, nonce, type, each escaped and double-quoted
(`attrFragment`), omitted when not (truthily) supplied; an id containing
`"` has the quote escaped, preventing attribute breakout. -/
theorem c6_inline_attrs_order_escaped :
    (∀ (s : SafeScript) (o : ScriptToHtmlOptions),
      unwrapHtml (scriptToHtml s o) =
        "<script".data ++ attrFragment " id".data o.id ++
          attrFragment " nonce".data o.nonce ++
          attrFragment " type".data o.type ++
          ">".data ++ unwrapScript s ++ "</script>".data) ∧
    unwrapHtml (scriptToHtml (createScript "x".data)
        {id := some "\"x".data}) =
      "<script id=\"&quot;x\">x</script>".data := by
  refine ⟨?_, by decide⟩
  intro s o
  rcases o with ⟨i, n, t⟩
  have hid : (" id=\"".data : List Char) = " id".data ++ "=\"".data := rfl
  have hnonce : (" nonce=\"".data : List Char) = " nonce".data ++ "=\"".data := rfl
  have htype : (" type=\"".data : List Char) = " type".data ++ "=\"".data := rfl
  by_cases hi : strTruthy i <;> by_cases hn : strTruthy n <;>
    by_cases ht : strTruthy t <;>
    simp [scriptToHtml, attrFragment, unwrapHtml, createHtml,
      hi, hn, ht, hid, hnonce, htype, List.append_assoc]

/-- Claim C7, counterexample: a nonce that is present but empty is not
emitted — the output coincides with the output for an absent nonce and
contains no ` nonce` attribute, contradicting "exactly when present". -/
theorem c7_counterexample :
    strTruthy (some ([] : List Char)) = false ∧
    scriptUrlToHtml (createResourceUrl "https://example.com/".data)
        ⟨none, some []⟩ =
      scriptUrlToHtml (createResourceUrl "https://example.com/".data)
        ⟨none, none⟩ ∧
    containsSeq " nonce".data
      (unwrapHtml (scriptUrlToHtml
        (createResourceUrl "https://example.com/".data) ⟨none, some []⟩)) =
      false := by
  decide

/-- Claim C7, amended: the external builder embeds the unwrapped URL
escaped as the `src` value, emits bare `async` exactly when the async
option is `true`, and emits the nonce as an escaped double-quoted
attribute exactly when it is present and non-empty. -/
theorem c7_url_tag_structure :
    ∀ (u : TrustedResourceUrl) (o : ScriptUrlToHtmlOptions),
      unwrapHtml (scriptUrlToHtml u o) =
        "<script src=\"".data ++
          htmlEscapeToString (unwrapResourceUrl u) ++ "\"".data ++
          (if o.async = some true then " async".data else []) ++
          attrFragment " nonce".data o.nonce ++ "></script>".data := by
  intro u o
  rcases o with ⟨a, n⟩
  have hnonce : (" nonce=\"".data : List Char) = " nonce".data ++ "=\"".data := rfl
  rcases a with _ | b
  · by_cases hn : strTruthy n <;>
      simp [scriptUrlToHtml, attrFragment, unwrapHtml, createHtml,
        hn, hnonce, List.append_assoc]
  · cases b <;> by_cases hn : strTruthy n <;>
      simp [scriptUrlToHtml, attrFragment, unwrapHtml, createHtml,
        hn, hnonce, List.append_assoc]

/-- Claim C8: structural escaping is not idempotent; escaping `&` gives
`&amp;` and escaping the result double-escapes to `&amp;amp;`. -/
theorem c8_not_idempotent :
    (∃ s : List Char,
      unwrapHtml (htmlEscape (unwrapHtml (htmlEscape s {})) {}) ≠
        unwrapHtml (htmlEscape s {})) ∧
    unwrapHtml (htmlEscape "&".data {}) = "&amp;".data ∧
    unwrapHtml (htmlEscape "&amp;".data {}) = "&amp;amp;".data := by
  exact ⟨⟨"&".data, by decide⟩, by decide, by decide⟩

/-- Claim C9: concatenating the empty list yields the markup value with
empty unwrapped string, and that value is an identity element for
concatenation. -/
theorem c9_concat_empty_identity :
    unwrapHtml (concatHtmls []) = [] ∧
    ∀ h : SafeHtml,
      concatHtmls [concatHtmls [], h] = h ∧
      concatHtmls [h, concatHtmls []] = h := by
  refine ⟨rfl, fun h => ⟨?_, ?_⟩⟩ <;>
    · rcases h with ⟨raw⟩
      simp [concatHtmls, unwrapHtml, createHtml]

/-- Claim C10: supplying the empty string for id, nonce or type (in either
builder) produces exactly the output obtained by omitting the option:
the attribute is omitted for every falsy option value. -/
theorem c10_falsy_option_omitted :
    ∀ (s : SafeScript) (u : TrustedResourceUrl)
      (i n t : Option (List Char)) (a : Option Bool),
      scriptToHtml s ⟨some [], n, t⟩ = scriptToHtml s ⟨none, n, t⟩ ∧
      scriptToHtml s ⟨i, some [], t⟩ = scriptToHtml s ⟨i, none, t⟩ ∧
      scriptToHtml s ⟨i, n, some []⟩ = scriptToHtml s ⟨i, n, none⟩ ∧
      scriptUrlToHtml u ⟨a, some []⟩ = scriptUrlToHtml u ⟨a, none⟩ := by
  intro s u i n t a
  refine ⟨?_, ?_, ?_, ?_⟩ <;> simp [scriptToHtml, scriptUrlToHtml, strTruthy]
